import Mathlib

/-!
Verification development for the Climatech client code base.

The repository ships a React client (src/client and the unnamed parts) plus
deployment scripts; the numeric logic exercised by the claims lives in the
client components.  Each JavaScript function relevant to a claim is embedded
below as an executable Lean definition: JS numbers become rationals, nullable
fields become `Option`, and error objects become explicit structures.
-/

/-! ## ExtendedForecast.jsx — weekly aggregation (`getWeeklyForecast`) -/

/-- A daily forecast record as consumed by `getWeeklyForecast` in
`ExtendedForecast.jsx`.  `date` is a day number; the model fixes the epoch on
a Sunday so that `date % 7` is the day of week (`date.getDay()`).  Nullable
numeric fields are `Option`. -/
structure DailyForecast where
  date : Nat
  precipitation_amount : Option ℚ
  temperature_max : ℚ
  temperature_min : ℚ
  humidity : Option ℚ
  wind_speed : Option ℚ
deriving DecidableEq

/-- `f.precipitation_amount || 0` from the weekly reduce. -/
def amountOrZero (f : DailyForecast) : ℚ :=
  f.precipitation_amount.getD 0

/-- `new Date(y, m, d - date.getDay())`: the Sunday starting the week of day
`d` (the `weekKey` grouping key of `getWeeklyForecast`). -/
def weekKey (d : Nat) : Nat := d - d % 7

/-- One entry of the `weeks` object built by `getWeeklyForecast`. -/
structure WeekSummary where
  week_start : Nat
  forecasts : List DailyForecast
  avg_temperature : ℚ
  total_precipitation : ℚ
  avg_humidity : ℚ
  avg_wind_speed : ℚ
deriving DecidableEq

/-- `weeks[weekKey].forecasts.push(forecast)`, creating the key at the end of
the insertion order when absent — exactly the JS object update. -/
def addToWeek (gs : List (Nat × List DailyForecast)) (k : Nat) (f : DailyForecast) :
    List (Nat × List DailyForecast) :=
  match gs with
  | [] => [(k, [f])]
  | (k₀, g) :: rest =>
      if k₀ = k then (k₀, g ++ [f]) :: rest
      else (k₀, g) :: addToWeek rest k f

/-- The grouping pass of `getWeeklyForecast` (`forecasts.forEach(...)`). -/
def groupByWeek (fs : List DailyForecast) : List (Nat × List DailyForecast) :=
  fs.foldl (fun gs f => addToWeek gs (weekKey f.date) f) []

/-- The per-week statistics pass of `getWeeklyForecast` (the
`Object.keys(weeks).forEach` block computing averages and the precipitation
total by `reduce`). -/
def mkWeekSummary (k : Nat) (g : List DailyForecast) : WeekSummary :=
  let count : ℚ := g.length
  { week_start := k
    forecasts := g
    avg_temperature :=
      (g.foldl (fun s f => s + (f.temperature_max + f.temperature_min) / 2) 0) / count
    total_precipitation := g.foldl (fun s f => s + amountOrZero f) 0
    avg_humidity := (g.foldl (fun s f => s + f.humidity.getD 0) 0) / count
    avg_wind_speed := (g.foldl (fun s f => s + f.wind_speed.getD 0) 0) / count }

/-- `getWeeklyForecast` from `ExtendedForecast.jsx`: group the daily
forecasts by week, compute each week summary, and sort by week start. -/
def getWeeklyForecast (fs : List DailyForecast) : List WeekSummary :=
  List.insertionSort (fun a b => a.week_start ≤ b.week_start)
    ((groupByWeek fs).map (fun p => mkWeekSummary p.1 p.2))

/-- The group stored under key `k` (first matching entry; keys are unique). -/
def groupOf (gs : List (Nat × List DailyForecast)) (k : Nat) : List DailyForecast :=
  match gs with
  | [] => []
  | (k₀, g) :: rest => if k₀ = k then g else groupOf rest k

theorem groupOf_addToWeek (gs : List (Nat × List DailyForecast)) (k' : Nat)
    (f : DailyForecast) (k : Nat) :
    groupOf (addToWeek gs k' f) k =
      if k = k' then groupOf gs k ++ [f] else groupOf gs k := by
  induction gs with
  | nil =>
      by_cases h : k = k'
      · simp [addToWeek, groupOf, h]
      · have h' : ¬ k' = k := fun hh => h hh.symm
        simp [addToWeek, groupOf, h, h']
  | cons hd rest ih =>
      obtain ⟨k₀, g⟩ := hd
      by_cases h0 : k₀ = k'
      · subst h0
        by_cases hk : k₀ = k
        · subst hk
          simp [addToWeek, groupOf]
        · have hk' : ¬ k = k₀ := fun hh => hk hh.symm
          simp [addToWeek, groupOf, hk, hk']
      · by_cases hk : k₀ = k
        · have hne : ¬ k = k' := fun hh => h0 (hk.trans hh)
          simp [addToWeek, groupOf, h0, hk, hne]
        · simp [addToWeek, groupOf, h0, hk, ih]

theorem groupOf_foldl (fs : List DailyForecast)
    (gs : List (Nat × List DailyForecast)) (k : Nat) :
    groupOf (fs.foldl (fun gs f => addToWeek gs (weekKey f.date) f) gs) k =
      groupOf gs k ++ fs.filter (fun f => weekKey f.date == k) := by
  induction fs generalizing gs with
  | nil => simp
  | cons f fs ih =>
      simp only [List.foldl_cons, List.filter_cons]
      rw [ih, groupOf_addToWeek]
      by_cases h : k = weekKey f.date
      · have hb : (weekKey f.date == k) = true := beq_iff_eq.mpr h.symm
        simp [h, hb, List.append_assoc]
      · have hb : (weekKey f.date == k) = false :=
          beq_eq_false_iff_ne.mpr (fun hh => h hh.symm)
        simp [h, hb]

theorem groupOf_groupByWeek (fs : List DailyForecast) (k : Nat) :
    groupOf (groupByWeek fs) k = fs.filter (fun f => weekKey f.date == k) := by
  have := groupOf_foldl fs [] k
  simpa [groupByWeek, groupOf] using this

theorem keys_addToWeek (gs : List (Nat × List DailyForecast)) (k : Nat)
    (f : DailyForecast) :
    (addToWeek gs k f).map Prod.fst =
      if k ∈ gs.map Prod.fst then gs.map Prod.fst else gs.map Prod.fst ++ [k] := by
  induction gs with
  | nil => simp [addToWeek]
  | cons hd rest ih =>
      obtain ⟨k₀, g⟩ := hd
      by_cases h0 : k₀ = k
      · subst h0
        simp [addToWeek]
      · have hmem : k ∈ k₀ :: rest.map Prod.fst ↔ k ∈ rest.map Prod.fst := by
          constructor
          · intro h
            rcases List.mem_cons.mp h with h | h
            · exact absurd h.symm h0
            · exact h
          · exact fun h => List.mem_cons_of_mem _ h
        by_cases hk : k ∈ rest.map Prod.fst
        · simp [addToWeek, h0, ih, hk, hmem]
        · simp [addToWeek, h0, ih, hk, hmem]

theorem keys_nodup_addToWeek (gs : List (Nat × List DailyForecast)) (k : Nat)
    (f : DailyForecast) (h : (gs.map Prod.fst).Nodup) :
    ((addToWeek gs k f).map Prod.fst).Nodup := by
  rw [keys_addToWeek]
  by_cases hk : k ∈ gs.map Prod.fst
  · simpa [hk]
  · simp only [hk, if_false]
    rw [List.nodup_append]
    refine ⟨h, List.nodup_singleton k, ?_⟩
    intro a ha hb
    rw [List.mem_singleton] at hb
    subst hb
    exact hk ha

theorem keys_nodup_foldl (fs : List DailyForecast)
    (gs : List (Nat × List DailyForecast)) (h : (gs.map Prod.fst).Nodup) :
    ((fs.foldl (fun gs f => addToWeek gs (weekKey f.date) f) gs).map Prod.fst).Nodup := by
  induction fs generalizing gs with
  | nil => simpa
  | cons f fs ih =>
      simp only [List.foldl_cons]
      exact ih _ (keys_nodup_addToWeek gs (weekKey f.date) f h)

theorem keys_nodup_groupByWeek (fs : List DailyForecast) :
    ((groupByWeek fs).map Prod.fst).Nodup :=
  keys_nodup_foldl fs [] (by simp)

theorem groupOf_of_mem (gs : List (Nat × List DailyForecast))
    (h : (gs.map Prod.fst).Nodup) (p : Nat × List DailyForecast) (hp : p ∈ gs) :
    groupOf gs p.1 = p.2 := by
  induction gs with
  | nil => cases hp
  | cons hd rest ih =>
      obtain ⟨k₀, g⟩ := hd
      rcases List.mem_cons.mp hp with rfl | hp'
      · simp [groupOf]
      · have hk : k₀ ≠ p.1 := by
          intro hkk
          have hmem : p.1 ∈ rest.map Prod.fst := List.mem_map_of_mem Prod.fst hp'
          rw [← hkk] at hmem
          exact (List.nodup_cons.mp (by simpa using h)).1 hmem
        simp only [groupOf, if_neg hk]
        exact ih (List.nodup_cons.mp (by simpa using h)).2 hp'

theorem foldl_add_amount (l : List DailyForecast) (init : ℚ) :
    l.foldl (fun s f => s + amountOrZero f) init = init + (l.map amountOrZero).sum := by
  induction l generalizing init with
  | nil => simp
  | cons f fs ih =>
      simp only [List.foldl_cons, List.map_cons, List.sum_cons]
      rw [ih]
      ring

theorem nonempty_addToWeek (gs : List (Nat × List DailyForecast)) (k : Nat)
    (f : DailyForecast) (h : ∀ p ∈ gs, p.2 ≠ []) :
    ∀ p ∈ addToWeek gs k f, p.2 ≠ [] := by
  induction gs with
  | nil =>
      intro p hp
      simp only [addToWeek, List.mem_singleton] at hp
      subst hp
      simp
  | cons hd rest ih =>
      obtain ⟨k₀, g⟩ := hd
      intro p hp
      by_cases h0 : k₀ = k
      · simp only [addToWeek, if_pos h0] at hp
        rcases List.mem_cons.mp hp with rfl | hp'
        · simp
        · exact h p (List.mem_cons_of_mem _ hp')
      · simp only [addToWeek, if_neg h0] at hp
        rcases List.mem_cons.mp hp with rfl | hp'
        · exact h _ (List.mem_cons_self _ _)
        · exact ih (fun q hq => h q (List.mem_cons_of_mem _ hq)) p hp'

theorem nonempty_groupByWeek (fs : List DailyForecast) :
    ∀ p ∈ groupByWeek fs, p.2 ≠ [] := by
  suffices h : ∀ gs, (∀ p ∈ gs, p.2 ≠ []) →
      ∀ p ∈ fs.foldl (fun gs f => addToWeek gs (weekKey f.date) f) gs, p.2 ≠ [] by
    exact h [] (by simp)
  induction fs with
  | nil => intro gs hgs; simpa using hgs
  | cons f fs ih =>
      intro gs hgs
      simp only [List.foldl_cons]
      exact ih _ (nonempty_addToWeek gs (weekKey f.date) f hgs)

/-- C1. Aggregation is additive: every weekly summary produced by
`getWeeklyForecast` carries exactly the daily forecasts whose week key is its
`week_start`, and its `total_precipitation` is the sum of the precipitation
amounts (`precipitation_amount || 0`) of exactly those contained points — the
total is never derived from anything else. -/
theorem weekly_total_is_sum_of_contained_days (fs : List DailyForecast)
    (w : WeekSummary) (hw : w ∈ getWeeklyForecast fs) :
    w.forecasts = fs.filter (fun f => weekKey f.date == w.week_start) ∧
    w.total_precipitation = (w.forecasts.map amountOrZero).sum := by
  have hmem : w ∈ (groupByWeek fs).map (fun p => mkWeekSummary p.1 p.2) := by
    simpa [getWeeklyForecast] using hw
  obtain ⟨p, hp, rfl⟩ := List.mem_map.mp hmem
  have hgrp : p.2 = fs.filter (fun f => weekKey f.date == p.1) := by
    rw [← groupOf_groupByWeek fs p.1]
    exact (groupOf_of_mem (groupByWeek fs) (keys_nodup_groupByWeek fs) p hp).symm
  constructor
  · simpa [mkWeekSummary] using hgrp
  · simp only [mkWeekSummary]
    rw [foldl_add_amount]
    simp

/-- Concrete day used by several witnesses: day 3 (a Wednesday in the model),
5 mm of rain. -/
def sampleForecast : DailyForecast :=
  { date := 3
    precipitation_amount := some 5
    temperature_max := 20
    temperature_min := 10
    humidity := some 50
    wind_speed := none }

/-- Witness for C1 at the one-element input `[sampleForecast]`. -/
theorem weekly_total_is_sum_of_contained_days_witness :
    (mkWeekSummary 0 [sampleForecast]).forecasts =
      [sampleForecast].filter (fun f => weekKey f.date == 0) ∧
    (mkWeekSummary 0 [sampleForecast]).total_precipitation =
      ((mkWeekSummary 0 [sampleForecast]).forecasts.map amountOrZero).sum :=
  weekly_total_is_sum_of_contained_days [sampleForecast]
    (mkWeekSummary 0 [sampleForecast]) (List.Mem.head _)

/-- C3 counterexample: for the empty input sequence the weekly aggregation of
`ExtendedForecast.jsx` returns the empty list of summaries — a plain
well-formed value.  The embedded `getWeeklyForecast` is a total function into
`List WeekSummary` with no error outcome, so the code never fails with an
`EmptyWindow` error as the claim states. -/
theorem getWeeklyForecast_nil_returns_value : getWeeklyForecast [] = [] := rfl

/-- C3 amended: on empty input `getWeeklyForecast` returns the empty list of
summaries (no summary at all, hence no zero-filled one), and every summary it
does emit contains at least one forecast point; no explicit `EmptyWindow`
error exists in this code path. -/
theorem getWeeklyForecast_empty_window_behavior (fs : List DailyForecast) :
    (fs = [] → getWeeklyForecast fs = []) ∧
    ∀ w ∈ getWeeklyForecast fs, w.forecasts ≠ [] := by
  constructor
  · rintro rfl
    rfl
  · intro w hw
    have hmem : w ∈ (groupByWeek fs).map (fun p => mkWeekSummary p.1 p.2) := by
      simpa [getWeeklyForecast] using hw
    obtain ⟨p, hp, rfl⟩ := List.mem_map.mp hmem
    simpa [mkWeekSummary] using nonempty_groupByWeek fs p hp

/-- Witness for C3 amended at the inputs `[]` and `[sampleForecast]`. -/
theorem getWeeklyForecast_empty_window_behavior_witness :
    getWeeklyForecast ([] : List DailyForecast) = [] ∧
    (mkWeekSummary 0 [sampleForecast]).forecasts ≠ [] :=
  ⟨(getWeeklyForecast_empty_window_behavior []).1 rfl,
   (getWeeklyForecast_empty_window_behavior [sampleForecast]).2
     (mkWeekSummary 0 [sampleForecast]) (List.Mem.head _)⟩

/-! ## ClimateProfile.jsx — climate statistics (`getClimateStats`) -/

/-- One entry of `climate_normals.monthly_normals` as used by
`getClimateStats` in `ClimateProfile.jsx`. -/
structure MonthlyNormal where
  month : Nat
  avg_temperature_c : ℚ
  total_precipitation_mm : ℚ
deriving DecidableEq

/-- `Math.max(...values)` for a list of numbers; `none` models the empty
spread (JS would give `-Infinity`, which the claims never exercise). -/
def maxOfList (l : List ℚ) : Option ℚ :=
  match l with
  | [] => none
  | x :: xs => some (xs.foldl max x)

/-- `wettest_month` from `getClimateStats`:
`monthly_normals.find(m => m.total_precipitation_mm === Math.max(...precips))`. -/
def wettest_month (normals : List MonthlyNormal) : Option MonthlyNormal :=
  match maxOfList (normals.map (fun m => m.total_precipitation_mm)) with
  | none => none
  | some mx => normals.find? (fun m => decide (m.total_precipitation_mm = mx))

theorem foldl_max_mem (x : ℚ) (xs : List ℚ) : xs.foldl max x ∈ x :: xs := by
  induction xs generalizing x with
  | nil => simp
  | cons y ys ih =>
      simp only [List.foldl_cons]
      rcases List.mem_cons.mp (ih (max x y)) with h | h
      · rcases max_choice x y with hm | hm
        · exact List.mem_cons.mpr (Or.inl (h.trans hm))
        · exact List.mem_cons.mpr (Or.inr (List.mem_cons.mpr (Or.inl (h.trans hm))))
      · exact List.mem_cons.mpr (Or.inr (List.mem_cons.mpr (Or.inr h)))

theorem le_foldl_max (x : ℚ) (xs : List ℚ) : ∀ a ∈ x :: xs, a ≤ xs.foldl max x := by
  induction xs generalizing x with
  | nil => simp
  | cons y ys ih =>
      intro a ha
      simp only [List.foldl_cons]
      rcases List.mem_cons.mp ha with rfl | ha'
      · exact le_trans (le_max_left a y) (ih (max a y) _ (List.mem_cons_self _ _))
      · rcases List.mem_cons.mp ha' with rfl | ha''
        · exact le_trans (le_max_right x a) (ih (max x a) _ (List.mem_cons_self _ _))
        · exact ih (max x y) a (List.mem_cons_of_mem _ ha'')

theorem find?_earliest {α : Type} (p : α → Bool) :
    ∀ (l : List α) (a : α), l.find? p = some a →
      ∃ i, ∃ h : i < l.length, l.get ⟨i, h⟩ = a ∧ p a = true ∧
        ∀ j (hj : j < l.length), j < i → p (l.get ⟨j, hj⟩) = false := by
  intro l
  induction l with
  | nil => intro a h; cases h
  | cons x xs ih =>
      intro a h
      by_cases hx : p x = true
      · rw [List.find?_cons_of_pos _ hx] at h
        injection h with h
        subst h
        exact ⟨0, by simp, rfl, hx, fun j hj hj0 => absurd hj0 (Nat.not_lt_zero j)⟩
      · have hx' : p x = false := by
          cases hpx : p x
          · rfl
          · exact absurd hpx hx
        rw [List.find?_cons_of_neg _ (by simp [hx'])] at h
        obtain ⟨i, hi, hget, hpa, hearlier⟩ := ih a h
        refine ⟨i + 1, by simpa using Nat.succ_lt_succ hi, by simpa using hget, hpa, ?_⟩
        intro j hj hj'
        match j with
        | 0 => simpa using hx'
        | j + 1 =>
            have : j < i := Nat.lt_of_succ_lt_succ hj'
            simpa using hearlier j (by simpa using Nat.lt_of_succ_lt_succ hj) this

/-- C2. For a non-empty `monthly_normals` list, `wettest_month` returns the
entry with the maximum `total_precipitation_mm`, and on ties the earliest one
in the list: every strictly earlier entry has strictly smaller
precipitation. -/
theorem wettest_month_is_earliest_max (normals : List MonthlyNormal)
    (hne : normals ≠ []) :
    ∃ m, wettest_month normals = some m ∧
      (∀ m' ∈ normals, m'.total_precipitation_mm ≤ m.total_precipitation_mm) ∧
      ∃ i, ∃ h : i < normals.length, normals.get ⟨i, h⟩ = m ∧
        ∀ j (hj : j < normals.length), j < i →
          (normals.get ⟨j, hj⟩).total_precipitation_mm < m.total_precipitation_mm := by
  obtain ⟨n0, rest, rfl⟩ := List.exists_cons_of_ne_nil hne
  set l := n0 :: rest with hl
  set mx := (rest.map (fun m => m.total_precipitation_mm)).foldl max
    n0.total_precipitation_mm with hmx
  have hmax : maxOfList (l.map (fun m => m.total_precipitation_mm)) = some mx := by
    simp [maxOfList, hl, hmx]
  have hmx_mem : mx ∈ l.map (fun m => m.total_precipitation_mm) := by
    have := foldl_max_mem n0.total_precipitation_mm
      (rest.map (fun m => m.total_precipitation_mm))
    simpa [hl, hmx] using this
  have hmx_ub : ∀ m' ∈ l, m'.total_precipitation_mm ≤ mx := by
    intro m' hm'
    have := le_foldl_max n0.total_precipitation_mm
      (rest.map (fun m => m.total_precipitation_mm)) m'.total_precipitation_mm
    apply this
    simpa [hl] using List.mem_map_of_mem (fun m => m.total_precipitation_mm) hm'
  obtain ⟨mwit, hmwit, hmwit_eq⟩ := List.mem_map.mp hmx_mem
  have hfind : ∃ m, l.find? (fun m => decide (m.total_precipitation_mm = mx)) = some m := by
    cases hcase : l.find? (fun m => decide (m.total_precipitation_mm = mx)) with
    | some m => exact ⟨m, rfl⟩
    | none =>
        have := List.find?_eq_none.mp hcase mwit hmwit
        simp [hmwit_eq] at this
  obtain ⟨m, hm⟩ := hfind
  obtain ⟨i, hi, hget, hpa, hearlier⟩ := find?_earliest _ l m hm
  have hm_mx : m.total_precipitation_mm = mx := by simpa using hpa
  refine ⟨m, ?_, ?_, i, hi, hget, ?_⟩
  · simp [wettest_month, hmax, hm]
  · intro m' hm'
    rw [hm_mx]
    exact hmx_ub m' hm'
  · intro j hj hji
    have hfalse := hearlier j hj hji
    have hne' : (l.get ⟨j, hj⟩).total_precipitation_mm ≠ mx := by
      simpa using hfalse
    have hle : (l.get ⟨j, hj⟩).total_precipitation_mm ≤ mx :=
      hmx_ub _ (l.get_mem j hj)
    rw [hm_mx]
    exact lt_of_le_of_ne hle hne'

/-- Witness for C2 on a two-month list whose maximum (7 mm) sits at index 1. -/
theorem wettest_month_is_earliest_max_witness :
    ([⟨1, 3, 5⟩, ⟨2, 4, 7⟩] : List MonthlyNormal) ≠ [] ∧
    (∃ m, wettest_month [⟨1, 3, 5⟩, ⟨2, 4, 7⟩] = some m ∧
      (∀ m' ∈ ([⟨1, 3, 5⟩, ⟨2, 4, 7⟩] : List MonthlyNormal),
        m'.total_precipitation_mm ≤ m.total_precipitation_mm) ∧
      ∃ i, ∃ h : i < ([⟨1, 3, 5⟩, ⟨2, 4, 7⟩] : List MonthlyNormal).length,
        ([⟨1, 3, 5⟩, ⟨2, 4, 7⟩] : List MonthlyNormal).get ⟨i, h⟩ = m ∧
        ∀ j (hj : j < ([⟨1, 3, 5⟩, ⟨2, 4, 7⟩] : List MonthlyNormal).length), j < i →
          (([⟨1, 3, 5⟩, ⟨2, 4, 7⟩] : List MonthlyNormal).get ⟨j, hj⟩).total_precipitation_mm <
            m.total_precipitation_mm) :=
  ⟨by decide, wettest_month_is_earliest_max [⟨1, 3, 5⟩, ⟨2, 4, 7⟩] (by decide)⟩

/-! ## DateRangeSelector.jsx — horizon buckets and method labels -/

/-- The period label shown by `DateRangeSelector.jsx` (lines 73-75). -/
def periodLabel (forecastDays : Int) : String :=
  if forecastDays ≤ 7 then "Short-term"
  else if forecastDays ≤ 30 then "Medium-term"
  else if forecastDays ≤ 90 then "Extended"
  else "Long-range"

/-- The method label shown by `DateRangeSelector.jsx` (lines 81-83): the
methods the forecast favors at each forecast length in days. -/
def methodLabel (forecastDays : Int) : String :=
  if forecastDays ≤ 7 then "Persistence + Analog"
  else if forecastDays ≤ 30 then "Climatology + Trends"
  else "Climate Normals"

/-- Does the character list `sub` occur inside `hay`? -/
def charsInfix (sub hay : List Char) : Bool :=
  match hay with
  | [] => sub.isEmpty
  | _ :: rest => List.isPrefixOf sub hay || charsInfix sub rest

/-- Whether the string `s` mentions the word `sub`. -/
def mentionsWord (s sub : String) : Bool :=
  charsInfix sub.data s.data

/-- C4 counterexample: at a 10-day horizon (240 hours, inside the claimed
mid-term bucket of 72 hours to 30 days) the code favors
"Climatology + Trends" and mentions neither Analog nor the trained
regressor, contradicting the claimed bucket assignments. -/
theorem methodLabel_midterm_not_analog_regressor :
    methodLabel 10 = "Climatology + Trends" ∧
    mentionsWord (methodLabel 10) "Analog" = false ∧
    mentionsWord (methodLabel 10) "Regressor" = false := by
  refine ⟨by decide, by decide, by decide⟩

/-- C4 amended: the per-horizon method labels follow the code buckets of
`DateRangeSelector.jsx`: up to 7 days "Persistence + Analog", 8 to 30 days
"Climatology + Trends", beyond 30 days "Climate Normals". -/
theorem methodLabel_buckets (forecastDays : Int) :
    (forecastDays ≤ 7 → methodLabel forecastDays = "Persistence + Analog") ∧
    (7 < forecastDays → forecastDays ≤ 30 →
      methodLabel forecastDays = "Climatology + Trends") ∧
    (30 < forecastDays → methodLabel forecastDays = "Climate Normals") := by
  refine ⟨fun h => ?_, fun h1 h2 => ?_, fun h => ?_⟩
  · simp [methodLabel, h]
  · simp [methodLabel, h2, not_le.mpr h1]
  · have h7 : ¬ forecastDays ≤ 7 := by omega
    have h30 : ¬ forecastDays ≤ 30 := by omega
    simp [methodLabel, h7, h30]

/-- Witness for C4 amended at the three concrete horizons 5, 10 and 120. -/
theorem methodLabel_buckets_witness :
    methodLabel 5 = "Persistence + Analog" ∧
    methodLabel 10 = "Climatology + Trends" ∧
    methodLabel 120 = "Climate Normals" :=
  ⟨(methodLabel_buckets 5).1 (by decide),
   (methodLabel_buckets 10).2.1 (by decide) (by decide),
   (methodLabel_buckets 120).2.2 (by decide)⟩

/-! ## EventDatePicker (part_009) — `validateDates` -/

/-- The `errors` object assembled by `validateDates`. -/
structure DateErrors where
  startDate : Option String
  horizon : Option String
deriving DecidableEq

/-- `validateDates(start, horizon)` from the EventDatePicker component:
timestamps are milliseconds; `start = none` models a null start date (the JS
guards test `start && ...`).  Each later failed check overwrites the earlier
message for the same field, exactly as sequential JS assignments do. -/
def validateDates (start : Option Int) (now : Int) (horizon : Int) : DateErrors :=
  let minDate := now + 60 * 60 * 1000
  let maxDate := now + 30 * 24 * 60 * 60 * 1000
  let e1 : Option String :=
    match start with
    | some s => if s < minDate then some "Start date must be at least 1 hour in the future" else none
    | none => none
  let e2 : Option String :=
    match start with
    | some s => if s > maxDate then some "Start date cannot be more than 30 days in the future" else e1
    | none => e1
  let h1 : Option String :=
    if horizon < 1 then some "Forecast horizon must be at least 1 hour" else none
  let h2 : Option String :=
    if horizon > 720 then some "Forecast horizon cannot exceed 30 days (720 hours)" else h1
  { startDate := e2, horizon := h2 }

/-- C5 counterexample: a 180-day horizon is 4320 hours, inside the range the
claim says is always accepted, yet `validateDates` rejects it as exceeding
the 720-hour (30-day) maximum. -/
theorem validateDates_rejects_180_days :
    (validateDates none 0 4320).horizon =
      some "Forecast horizon cannot exceed 30 days (720 hours)" := by
  decide

/-- C5 amended: the hourly boundary accepts exactly the horizons from 1 to
720 hours (30 days); any longer horizon — including everything up to the six
months the spec promises — is rejected as exceeding the maximum. -/
theorem validateDates_horizon_range (start : Option Int) (now horizon : Int) :
    (validateDates start now horizon).horizon = none ↔ 1 ≤ horizon ∧ horizon ≤ 720 := by
  by_cases h1 : horizon < 1
  all_goals by_cases h2 : horizon > 720
  all_goals simp [validateDates, h1, h2]
  all_goals omega

/-- Witness for C5 amended at horizon 168 hours (accepted) via the forward
direction at concrete inputs. -/
theorem validateDates_horizon_range_witness :
    (validateDates none 0 168).horizon = none :=
  (validateDates_horizon_range none 0 168).mpr (by decide)

/-! ## MonthlyOutlook.jsx — tendency labels -/

/-- `getTendencyText` from `MonthlyOutlook.jsx`. -/
def getTendencyText (tendency : String) : String :=
  if tendency = "above_normal" then "Above Normal"
  else if tendency = "below_normal" then "Below Normal"
  else if tendency = "near_normal" then "Near Normal"
  else "Unknown"

/-- `getOutlookColor` from `MonthlyOutlook.jsx`; the `default` switch branch
returns the neutral gray. -/
def getOutlookColor (tendency : String) : String :=
  if tendency = "above_normal" then "text-red-400"
  else if tendency = "below_normal" then "text-blue-400"
  else if tendency = "near_normal" then "text-gray-400"
  else "text-gray-400"

/-- C7. Any outlook value other than above_normal, below_normal and
near_normal is labeled "Unknown" — never the near_normal label "Near
Normal": the absence of a tercile label stays unclassified. -/
theorem unknown_tendency_not_near_normal (t : String)
    (h1 : t ≠ "above_normal") (h2 : t ≠ "below_normal") (h3 : t ≠ "near_normal") :
    getTendencyText t = "Unknown" ∧
    getTendencyText t ≠ getTendencyText "near_normal" := by
  constructor
  · simp [getTendencyText, h1, h2, h3]
  · simp [getTendencyText, h1, h2, h3]

/-- Witness for C7 at the concrete unclassified value "no_normal". -/
theorem unknown_tendency_not_near_normal_witness :
    getTendencyText "no_normal" = "Unknown" ∧
    getTendencyText "no_normal" ≠ getTendencyText "near_normal" :=
  unknown_tendency_not_near_normal "no_normal" (by decide) (by decide) (by decide)

/-! ## LocationInput.jsx — coordinate validation -/

/-- `isValidCoordinate(lat, lng)` from `LocationInput.jsx`.  `none` models a
`parseFloat` result of `NaN` (the `!isNaN` guards; NaN also fails every
comparison). -/
def isValidCoordinate (lat lng : Option ℚ) : Bool :=
  match lat, lng with
  | some a, some b =>
      decide (-90 ≤ a) && decide (a ≤ 90) && decide (-180 ≤ b) && decide (b ≤ 180)
  | _, _ => false

/-- `handleCoordinateChange` from `LocationInput.jsx`: parse both inputs and
call `onLocationChange(lat, lng)` only when `isValidCoordinate` holds.  The
returned `Option` is the argument passed to `onLocationChange` (`none` means
the callback is not invoked). -/
def handleCoordinateChange (latInput lngInput : Option ℚ) : Option (ℚ × ℚ) :=
  if isValidCoordinate latInput lngInput then
    some (latInput.getD 0, lngInput.getD 0)
  else none

/-- C8. A location change is issued only for numeric coordinates with
latitude in [-90, 90] and longitude in [-180, 180]; for every non-numeric or
out-of-range pair `onLocationChange` is never called. -/
theorem location_change_only_when_valid (latInput lngInput : Option ℚ) :
    (∀ a b, handleCoordinateChange latInput lngInput = some (a, b) →
      -90 ≤ a ∧ a ≤ 90 ∧ -180 ≤ b ∧ b ≤ 180) ∧
    (isValidCoordinate latInput lngInput = false →
      handleCoordinateChange latInput lngInput = none) := by
  constructor
  · intro a b h
    match hlat : latInput, hlng : lngInput with
    | some la, some lb =>
        rw [handleCoordinateChange] at h
        by_cases hv : isValidCoordinate (some la) (some lb)
        · rw [if_pos hv] at h
          injection h with h
          obtain ⟨rfl, rfl⟩ : la = a ∧ lb = b := by
            constructor <;> [exact congrArg Prod.fst h; exact congrArg Prod.snd h]
          simp only [isValidCoordinate, Bool.and_eq_true, decide_eq_true_eq] at hv
          exact ⟨hv.1.1.1, hv.1.1.2, hv.1.2, hv.2⟩
        · rw [if_neg hv] at h
          cases h
    | some la, none =>
        rw [handleCoordinateChange] at h
        simp [isValidCoordinate] at h
    | none, _ =>
        rw [handleCoordinateChange] at h
        simp [isValidCoordinate] at h
  · intro h
    simp [handleCoordinateChange, h]

/-- Witness for C8 at the valid pair (40, -74) and the invalid pair
(100, 0). -/
theorem location_change_only_when_valid_witness :
    (-90 ≤ (40 : ℚ) ∧ (40 : ℚ) ≤ 90 ∧ -180 ≤ (-74 : ℚ) ∧ (-74 : ℚ) ≤ 180) ∧
    handleCoordinateChange (some 100) (some 0) = none :=
  ⟨(location_change_only_when_valid (some 40) (some (-74))).1
      40 (-74) (by decide),
   (location_change_only_when_valid (some 100) (some 0)).2 (by decide)⟩

/-! ## App (part_006) — monthly outlook request size -/

/-- `months: Math.ceil(forecastDays / 30)` from `handleMonthlyOutlook`:
the number of months requested from the monthly-outlook endpoint, the
ceiling of the exact (rational) division by 30. -/
def monthsRequested (forecastDays : Nat) : Int :=
  ⌈(forecastDays : ℚ) / 30⌉

/-- C9. For every forecast length from 1 to 180 days the monthly outlook
request asks for exactly the ceiling of days/30 months — characterized by
`n ≤ 30m` and `30(m-1) < n` — and that number always lies between 1 and 6
inclusive. -/
theorem monthsRequested_bounds (n : Nat) (h1 : 1 ≤ n) (h2 : n ≤ 180) :
    1 ≤ monthsRequested n ∧ monthsRequested n ≤ 6 ∧
    (n : Int) ≤ 30 * monthsRequested n ∧ 30 * (monthsRequested n - 1) < n := by
  have hdef : monthsRequested n = ⌈(n : ℚ) / 30⌉ := rfl
  rw [hdef]
  have h30 : (0:ℚ) < 30 := by norm_num
  have hnq : (1:ℚ) ≤ (n:ℚ) := by exact_mod_cast h1
  have hnq2 : (n:ℚ) ≤ 180 := by exact_mod_cast h2
  have hub : (n:ℚ) / 30 ≤ ((⌈(n : ℚ) / 30⌉ : ℤ) : ℚ) := Int.le_ceil _
  have hlb : ((⌈(n : ℚ) / 30⌉ : ℤ) : ℚ) < (n:ℚ) / 30 + 1 := Int.ceil_lt_add_one _
  refine ⟨?_, ?_, ?_, ?_⟩
  · have hqpos : ((0:ℤ):ℚ) < (n:ℚ) / 30 := div_pos (by linarith) h30
    have := Int.lt_ceil.mpr hqpos
    omega
  · apply Int.ceil_le.mpr
    rw [div_le_iff₀ h30]
    norm_num
    linarith
  · have h4 : (n:ℚ) ≤ ((⌈(n : ℚ) / 30⌉ : ℤ) : ℚ) * 30 := (div_le_iff₀ h30).mp hub
    have goalq : ((n : ℤ) : ℚ) ≤ ((30 * ⌈(n : ℚ) / 30⌉ : ℤ) : ℚ) := by push_cast; linarith
    exact_mod_cast goalq
  · have h5 : ((⌈(n : ℚ) / 30⌉ : ℤ) : ℚ) - 1 < (n:ℚ) / 30 := by linarith
    have h6 : (((⌈(n : ℚ) / 30⌉ : ℤ) : ℚ) - 1) * 30 < (n:ℚ) := (lt_div_iff₀ h30).mp h5
    have goalq : ((30 * (⌈(n : ℚ) / 30⌉ - 1) : ℤ) : ℚ) < ((n : ℤ) : ℚ) := by
      push_cast
      linarith
    exact_mod_cast goalq

/-- Witness for C9 at 45 forecast days (2 requested months). -/
theorem monthsRequested_bounds_witness :
    1 ≤ monthsRequested 45 ∧ monthsRequested 45 ≤ 6 ∧
    (45 : Int) ≤ 30 * monthsRequested 45 ∧ 30 * (monthsRequested 45 - 1) < 45 :=
  monthsRequested_bounds 45 (by decide) (by decide)

/-! ## services/api.js (part_011) — response interceptor error messages -/

/-- `error.response.data` with its optional `error` and `detail` fields. -/
structure ErrorResponseData where
  error : Option String
  detail : Option String
deriving DecidableEq

/-- `error.response`: present when the server answered. -/
structure ErrorResponse where
  data : Option ErrorResponseData
deriving DecidableEq

/-- The axios error object seen by the response interceptor: `response` when
the server answered, `request` when a request went out but nothing came
back, plus the original `message`. -/
structure AxiosError where
  response : Option ErrorResponse
  request : Bool
  message : String
deriving DecidableEq

/-- JS truthiness of an optional string: absent (`undefined`/`null`) and the
empty string are falsy. -/
def jsTruthy (s : Option String) : Bool :=
  match s with
  | none => false
  | some s => decide (s ≠ "")

/-- The message of the `Error` thrown by the response interceptor in
`services/api.js`:
`error.response.data?.error || error.response.data?.detail || 'Server error'`
when a response exists, the network message when only a request exists, and
`error.message || 'An unexpected error occurred'` otherwise. -/
def interceptorMessage (e : AxiosError) : String :=
  match e.response with
  | some r =>
      let err := r.data.bind (fun d => d.error)
      let det := r.data.bind (fun d => d.detail)
      if jsTruthy err then err.getD ""
      else if jsTruthy det then det.getD ""
      else "Server error"
  | none =>
      if e.request then "Network error - please check your connection"
      else if jsTruthy (some e.message) then e.message
      else "An unexpected error occurred"

/-- The message precedence exactly as C10 words it: the error field when the
server responded, else the detail field, else "Server error"; the network
message when no response came back; otherwise the original message. -/
def claimedMessage (e : AxiosError) : String :=
  match e.response with
  | some r =>
      match r.data.bind (fun d => d.error) with
      | some s => s
      | none =>
          match r.data.bind (fun d => d.detail) with
          | some s => s
          | none => "Server error"
  | none =>
      if e.request then "Network error - please check your connection"
      else e.message

/-- A server response whose `error` field is present but empty. -/
def emptyErrorFieldResponse : AxiosError :=
  { response := some { data := some { error := some "", detail := some "boom" } }
    request := false
    message := "" }

/-- C10 counterexample: with a present-but-empty `error` field the claim
says the message is that error field (the empty string), but the code uses
JS truthiness for `||` and falls through to the `detail` field "boom". -/
theorem interceptor_empty_error_field_diverges :
    interceptorMessage emptyErrorFieldResponse = "boom" ∧
    claimedMessage emptyErrorFieldResponse = "" ∧
    interceptorMessage emptyErrorFieldResponse ≠ claimedMessage emptyErrorFieldResponse := by
  refine ⟨by decide, by decide, by decide⟩

/-- The amended precedence: the first NON-EMPTY one of the error and detail
fields, else "Server error"; the fixed network message when only a request
exists; else the original message when non-empty, else the fixed fallback. -/
def amendedMessage (e : AxiosError) : String :=
  match e.response with
  | some r =>
      let fields := [r.data.bind (fun d => d.error), r.data.bind (fun d => d.detail)]
      (((fields.filterMap id).filter (fun s => decide (s ≠ ""))).headD "Server error")
  | none =>
      if e.request then "Network error - please check your connection"
      else if e.message = "" then "An unexpected error occurred"
      else e.message

/-- C10 amended: for every axios error the interceptor message follows the
truthiness-aware precedence `amendedMessage`: first non-empty of
error/detail else "Server error" when the server responded; the fixed
network message when only a request exists; the original message when
non-empty, else "An unexpected error occurred".  No failure is swallowed:
the interceptor always yields a message. -/
theorem interceptor_message_precedence (e : AxiosError) :
    interceptorMessage e = amendedMessage e := by
  obtain ⟨resp, req, msg⟩ := e
  cases resp with
  | none =>
      cases req with
      | true => rfl
      | false =>
          by_cases h : msg = "" <;>
            simp [interceptorMessage, amendedMessage, jsTruthy, h]
  | some r =>
      obtain ⟨d⟩ := r
      cases d with
      | none => rfl
      | some dd =>
          obtain ⟨err, det⟩ := dd
          cases err with
          | none =>
              cases det with
              | none => rfl
              | some s =>
                  by_cases h : s = "" <;>
                    simp [interceptorMessage, amendedMessage, jsTruthy, h]
          | some s =>
              by_cases h : s = ""
              · cases det with
                | none =>
                    simp [interceptorMessage, amendedMessage, jsTruthy, h]
                | some t =>
                    by_cases ht : t = "" <;>
                      simp [interceptorMessage, amendedMessage, jsTruthy, h, ht]
              · simp [interceptorMessage, amendedMessage, jsTruthy, h]

/-! ## ForecastBlender weights (modelled from the spec) -/

/-- The four forecasting methods named by the spec. -/
inductive Method where
  | persistence
  | analog
  | climatology
  | trained_regressor
deriving DecidableEq, Fintype

/-- Modelled from the spec: the ForecastBlender is absent from src/ (the
repository holds only the React client and deployment scripts), so its
weighting rule is taken from the spec text: "Weights for available methods
at a given horizon must be fixed, documented constants summing to 1
(methods that are Unavailable are excluded and remaining weights
renormalized to sum to 1)".  `w` is the fixed per-horizon weight table and
`avail` the set of methods that did not fail with Unavailable; an excluded
method gets weight 0 and an available one its fixed weight divided by the
total fixed weight of the available set. -/
def appliedWeight (w : Method → ℚ) (avail : Finset Method) (m : Method) : ℚ :=
  if m ∈ avail then w m / (∑ x ∈ avail, w x) else 0

/-- C6. For every positive fixed weight table and every non-empty set of
available methods, the renormalized weights actually applied to the
available methods sum to exactly 1 (the embedding computes in ℚ, so the
floating-point tolerance is not needed). -/
theorem appliedWeight_sum_one (w : Method → ℚ) (avail : Finset Method)
    (hpos : ∀ m, 0 < w m) (hne : avail.Nonempty) :
    ∑ m ∈ avail, appliedWeight w avail m = 1 := by
  have hS : 0 < ∑ x ∈ avail, w x :=
    Finset.sum_pos (fun m _ => hpos m) hne
  have hS0 : (∑ x ∈ avail, w x) ≠ 0 := ne_of_gt hS
  calc ∑ m ∈ avail, appliedWeight w avail m
      = ∑ m ∈ avail, w m / (∑ x ∈ avail, w x) := by
        apply Finset.sum_congr rfl
        intro m hm
        simp [appliedWeight, hm]
    _ = (∑ m ∈ avail, w m) / (∑ x ∈ avail, w x) := by
        rw [Finset.sum_div]
    _ = 1 := div_self hS0

/-- The spec's long-range weight table used as the concrete witness input:
climatology heavily favored, the rest small but positive. -/
def longRangeWeights : Method → ℚ
  | Method.persistence => 1/20
  | Method.analog => 3/20
  | Method.climatology => 7/10
  | Method.trained_regressor => 1/10

/-- Witness for C6: with Persistence and TrainedRegressor unavailable, the
weights applied to the remaining pair {Analog, Climatology} sum to 1. -/
theorem appliedWeight_sum_one_witness :
    ∑ m ∈ ({Method.analog, Method.climatology} : Finset Method),
      appliedWeight longRangeWeights {Method.analog, Method.climatology} m = 1 :=
  appliedWeight_sum_one longRangeWeights {Method.analog, Method.climatology}
    (by intro m; cases m <;> norm_num [longRangeWeights])
    ⟨Method.analog, by decide⟩
